import Mathlib

/-!
Verification of the core of a tape-based esoteric-language interpreter
(`interpreter.py`): a lexer producing a token stream with bracket-balance
checking, a loop resolver (`skip_loop`), and a stack-machine executor
(`parse_and_execute`) over a circular byte tape.

The Python code is embedded shallowly:
  * the eight-member `Token` enum becomes an inductive type;
  * the dynamically typed tape `list[int]` becomes `List Value`, where
    `Value` records that a Python list cell may in fact hold an `int` or a
    `str` (the `IN` instruction in numeric mode stores the raw `input()`
    string, so both cases are reachable);
  * Python exceptions (`ZeroDivisionError` from `% 0`, `IndexError` from
    list indexing and `pop` on an empty list, `TypeError` from `ord` /
    arithmetic on a string, `ValueError` from `chr`, `EOFError` from
    `input()`), and `sys.exit(1)`, become explicit outcome constructors;
  * the unbounded `while` loop of the executor is run on explicit fuel;
    `skip_loop`'s `while` terminates because `ip` strictly increases, so it
    is a well-founded recursion returning `none` for the `IndexError` case.
Python `%` on `int` agrees with `Int.emod` for a positive modulus, and
Python list indexing admits negative indices, which `normIdx` mirrors.
-/

inductive Token where
  | SHIFT_LEFT
  | SHIFT_RIGHT
  | INCREMENT
  | DECREMENT
  | OUT
  | IN
  | START_LOOP
  | END_LOOP
deriving DecidableEq, Repr

/-- A value held in one cell of the Python list `memory_state`.  The code
annotates it `list[int]`, but the numeric-mode `IN` branch assigns the raw
string returned by `input()`, so a cell may dynamically hold a string. -/
inductive Value where
  | intV (n : Int)
  | strV (s : String)
deriving DecidableEq, Repr

/-- The Python runtime errors that the embedded code can raise, split by
raise site so that claims can tell memory-bounds failures apart from
loop-stack underflow and token-stream overrun. -/
inductive PyErr where
  | zeroDivisionError
  | memIndexError
  | stackIndexError
  | tokenIndexError
  | typeError
  | valueError
  | eofError
deriving DecidableEq, Repr

/-- One item printed by the executor: `chr(cell)` in character mode, the
cell value in numeric mode, or the fatal-input diagnostic line. -/
inductive OutItem where
  | charOut (n : Int)
  | numOut (v : Value)
  | diag
deriving DecidableEq, Repr

/-- The local state of `parse_and_execute`, plus the stream of lines that
successive `input()` calls return and the accumulated printed output. -/
structure ExecState where
  ptr : Int
  memory : List Value
  loop_stack : List Nat
  ip : Nat
  inputs : List String
  output : List OutItem
deriving DecidableEq, Repr

/-- Result of executing one instruction: fall through to the next `ip`,
terminate the process via `sys.exit(1)`, or raise an exception. -/
inductive StepRes where
  | next (st : ExecState)
  | exit1 (st : ExecState)
  | err (e : PyErr) (st : ExecState)
deriving DecidableEq, Repr

/-- Result of a whole run of the executor on given fuel. -/
inductive Outcome where
  | finished (st : ExecState)
  | exited (st : ExecState)
  | error (e : PyErr) (st : ExecState)
  | outOfFuel (st : ExecState)
deriving DecidableEq, Repr

/-- Python list indexing: an index `i` with `0 ≤ i < len` is used directly,
a negative index with `-len ≤ i` counts from the end, anything else raises
`IndexError` (modelled by `none`). -/
def normIdx (len : Nat) (i : Int) : Option Nat :=
  if 0 ≤ i ∧ i < (len : Int) then some i.toNat
  else if -(len : Int) ≤ i ∧ i < 0 then some ((len : Int) + i).toNat
  else none

/-- Python's `cell == 0` comparison: on a string it is `False`, no error. -/
def isZero : Value → Bool
  | .intV n => n = 0
  | .strV _ => false

/-- The `ALLOWED_CHARS` dictionary of the lexer. -/
def ALLOWED_CHARS (c : Char) : Option Token :=
  if c = '<' then some .SHIFT_LEFT
  else if c = '>' then some .SHIFT_RIGHT
  else if c = '+' then some .INCREMENT
  else if c = '-' then some .DECREMENT
  else if c = '.' then some .OUT
  else if c = ',' then some .IN
  else if c = '[' then some .START_LOOP
  else if c = ']' then some .END_LOOP
  else none

/-- The `LexException` raised by `lex`, carrying the information formatted
into its message: the (line, raw offset) of an unmatched `]`, or the
recorded positions of every `[` left open at end of input (in the order the
Python code iterates its `open_bracket_stack`). -/
inductive LexException where
  | unmatchedClose (line idx : Nat)
  | unmatchedOpen (stack : List (Nat × Nat))
deriving DecidableEq, Repr

/-- The loop of `lex`: `line` is `line_no`, `idx` the `enumerate` index,
`stack` the `open_bracket_stack` with its top at the head, `acc` the tokens
appended so far. -/
def lexAux : List Char → Nat → Nat → List (Nat × Nat) → List Token →
    Except LexException (List Token)
  | [], _, _, stack, acc =>
    if stack.isEmpty then .ok acc else .error (.unmatchedOpen stack.reverse)
  | c :: rest, line, idx, stack, acc =>
    match ALLOWED_CHARS c with
    | none => lexAux rest (if c = '\n' then line + 1 else line) (idx + 1) stack acc
    | some tok =>
      if c = '[' then
        lexAux rest line (idx + 1) ((line, idx) :: stack) (acc ++ [tok])
      else if c = ']' then
        match stack with
        | [] => .error (.unmatchedClose line idx)
        | _ :: stail => lexAux rest line (idx + 1) stail (acc ++ [tok])
      else lexAux rest line (idx + 1) stack (acc ++ [tok])

/-- `lex(raw)`, iterating the source characters. -/
def lex (raw : List Char) : Except LexException (List Token) :=
  lexAux raw 0 0 [] []

/-- The `while` loop of `skip_loop`: Python keeps a list `stack` of pushed
positions and loops while it is non-empty, incrementing `ip` and indexing
`token_stream[ip]`; an out-of-range index raises `IndexError` (`none`). -/
def skip_loop_aux (ts : List Token) : List Nat → Nat → Option Nat
  | [], ip => some ip
  | x :: stail, ip =>
    if h : ip + 1 < ts.length then
      match ts.get ⟨ip + 1, h⟩ with
      | .START_LOOP => skip_loop_aux ts ((ip + 1) :: x :: stail) (ip + 1)
      | .END_LOOP => skip_loop_aux ts stail (ip + 1)
      | _ => skip_loop_aux ts (x :: stail) (ip + 1)
    else none
termination_by _ ip => ts.length - ip

/-- `skip_loop(ip, token_stream)`: the stack starts holding `ip`. -/
def skip_loop (ip : Nat) (ts : List Token) : Option Nat :=
  skip_loop_aux ts [ip] ip

/-- The body of the executor's `match` on one token.  Branches follow the
Python evaluation order: e.g. `IN` consumes the `input()` line before the
cell assignment can raise `IndexError`, and the `ord` `TypeError` of a
non-single-character line is caught and turned into `sys.exit(1)` after
printing the diagnostic. -/
def stepTok (ts : List Token) (print_as_nums : Bool) (st : ExecState) :
    Token → StepRes
  | .SHIFT_LEFT =>
    if st.memory.length = 0 then .err .zeroDivisionError st
    else .next { st with ptr := (st.ptr - 1) % (st.memory.length : Int),
                         ip := st.ip + 1 }
  | .SHIFT_RIGHT =>
    if st.memory.length = 0 then .err .zeroDivisionError st
    else .next { st with ptr := (st.ptr + 1) % (st.memory.length : Int),
                         ip := st.ip + 1 }
  | .INCREMENT =>
    match normIdx st.memory.length st.ptr with
    | none => .err .memIndexError st
    | some i =>
      match st.memory.get? i with
      | some (.intV n) =>
        .next { st with memory := st.memory.set i (.intV ((n + 1) % 256)),
                        ip := st.ip + 1 }
      | some (.strV _) => .err .typeError st
      | none => .err .memIndexError st
  | .DECREMENT =>
    match normIdx st.memory.length st.ptr with
    | none => .err .memIndexError st
    | some i =>
      match st.memory.get? i with
      | some (.intV n) =>
        .next { st with memory := st.memory.set i (.intV ((n - 1) % 256)),
                        ip := st.ip + 1 }
      | some (.strV _) => .err .typeError st
      | none => .err .memIndexError st
  | .OUT =>
    match normIdx st.memory.length st.ptr with
    | none => .err .memIndexError st
    | some i =>
      match st.memory.get? i with
      | none => .err .memIndexError st
      | some v =>
        if print_as_nums then
          .next { st with output := st.output ++ [.numOut v], ip := st.ip + 1 }
        else
          match v with
          | .strV _ => .err .typeError st
          | .intV n =>
            if 0 ≤ n ∧ n < 1114112 then
              .next { st with output := st.output ++ [.charOut n],
                              ip := st.ip + 1 }
            else .err .valueError st
  | .IN =>
    match st.inputs with
    | [] => .err .eofError st
    | s :: rest =>
      if print_as_nums then
        match normIdx st.memory.length st.ptr with
        | none => .err .memIndexError { st with inputs := rest }
        | some i =>
          .next { st with memory := st.memory.set i (.strV s),
                          inputs := rest, ip := st.ip + 1 }
      else
        match s.toList with
        | [c] =>
          match normIdx st.memory.length st.ptr with
          | none => .err .memIndexError { st with inputs := rest }
          | some i =>
            .next { st with memory := st.memory.set i (.intV (c.toNat : Int)),
                            inputs := rest, ip := st.ip + 1 }
        | _ => .exit1 { st with inputs := rest, output := st.output ++ [.diag] }
  | .START_LOOP =>
    match normIdx st.memory.length st.ptr with
    | none => .err .memIndexError st
    | some i =>
      match st.memory.get? i with
      | none => .err .memIndexError st
      | some v =>
        if isZero v then
          match skip_loop st.ip ts with
          | none => .err .tokenIndexError st
          | some j => .next { st with ip := j + 1 }
        else .next { st with loop_stack := st.ip :: st.loop_stack,
                             ip := st.ip + 1 }
  | .END_LOOP =>
    match normIdx st.memory.length st.ptr with
    | none => .err .memIndexError st
    | some i =>
      match st.memory.get? i with
      | none => .err .memIndexError st
      | some v =>
        if isZero v then
          match st.loop_stack with
          | [] => .err .stackIndexError st
          | _ :: rest => .next { st with loop_stack := rest, ip := st.ip + 1 }
        else
          match st.loop_stack with
          | [] => .err .stackIndexError st
          | s :: _ => .next { st with ip := s + 1 }

/-- One iteration of the executor's `while` loop body (the `ip += 1` of the
fall-through cases is already folded into each branch). -/
def step (ts : List Token) (print_as_nums : Bool) (st : ExecState) : StepRes :=
  match ts.get? st.ip with
  | none => .err .tokenIndexError st
  | some t => stepTok ts print_as_nums st t

/-- `parse_and_execute`, with the unbounded `while ip < instruction_length`
loop driven by explicit fuel. -/
def parse_and_execute (ts : List Token) (print_as_nums : Bool) :
    Nat → ExecState → Outcome
  | 0, st => .outOfFuel st
  | fuel + 1, st =>
    if st.ip < ts.length then
      match step ts print_as_nums st with
      | .next st2 => parse_and_execute ts print_as_nums fuel st2
      | .exit1 st2 => .exited st2
      | .err e st2 => .error e st2
    else .finished st

/-- The executor's starting state: `ptr = 0`, empty `loop_stack`, `ip = 0`,
a caller-supplied tape and pending input lines, nothing printed yet. -/
def initState (mem : List Value) (inputs : List String) : ExecState :=
  ⟨0, mem, [], 0, inputs, []⟩

/-- The state carried by an outcome. -/
def Outcome.state : Outcome → ExecState
  | .finished st => st
  | .exited st => st
  | .error _ st => st
  | .outOfFuel st => st

/-- The exception an outcome reports, if any. -/
def Outcome.errOf : Outcome → Option PyErr
  | .error e _ => some e
  | _ => none

/-- The exception a single step reports, if any. -/
def StepRes.errOf : StepRes → Option PyErr
  | .err e _ => some e
  | _ => none

/-- The state carried by a step result. -/
def StepRes.state : StepRes → ExecState
  | .next st => st
  | .exit1 st => st
  | .err _ st => st

/-- Bracket contribution of one token: `[` opens, `]` closes. -/
def tokDelta : Token → Int
  | .START_LOOP => 1
  | .END_LOOP => -1
  | _ => 0

/-- Net bracket depth of the first `k` tokens of the stream. -/
def pd (ts : List Token) (k : Nat) : Int := ((ts.take k).map tokDelta).sum

/-- A bracket-balanced token stream: no prefix closes more loops than it
opened, and the whole stream closes every loop. -/
def BalancedTok (ts : List Token) : Prop :=
  (∀ k, 0 ≤ pd ts k) ∧ pd ts ts.length = 0

lemma pd_zero (ts : List Token) : pd ts 0 = 0 := rfl

lemma pd_succ (ts : List Token) {k : Nat} {t : Token} (h : ts.get? k = some t) :
    pd ts (k + 1) = pd ts k + tokDelta t := by
  unfold pd
  rw [List.take_succ]
  rw [List.get?_eq_getElem?] at h
  rw [h]
  simp

/-- Soundness of the `skip_loop` scan: if it returns `j`, the scan consumed
positions `ip+1 .. j` and the net bracket depth of that span equals minus
the size of the starting stack. -/
lemma skip_loop_aux_pd (ts : List Token) :
    ∀ (n : Nat) (stack : List Nat) (ip j : Nat),
      ts.length - ip ≤ n →
      skip_loop_aux ts stack ip = some j →
      ip ≤ j ∧ pd ts (j + 1) = pd ts (ip + 1) - stack.length := by
  intro n
  induction n with
  | zero =>
    intro stack ip j hn h
    cases stack with
    | nil =>
      simp only [skip_loop_aux] at h
      cases h
      simp
    | cons x stail =>
      rw [skip_loop_aux] at h
      have hge : ¬ ip + 1 < ts.length := by omega
      rw [dif_neg hge] at h
      cases h
  | succ n ih =>
    intro stack ip j hn h
    cases stack with
    | nil =>
      simp only [skip_loop_aux] at h
      cases h
      simp
    | cons x stail =>
      rw [skip_loop_aux] at h
      by_cases hlt : ip + 1 < ts.length
      · rw [dif_pos hlt] at h
        have hget : ts.get? (ip + 1) = some (ts.get ⟨ip + 1, hlt⟩) :=
          List.get?_eq_get hlt
        have hpd2 : pd ts (ip + 1 + 1) = pd ts (ip + 1) + tokDelta (ts.get ⟨ip + 1, hlt⟩) :=
          pd_succ ts hget
        have hn2 : ts.length - (ip + 1) ≤ n := by omega
        cases htok : ts.get ⟨ip + 1, hlt⟩ with
        | START_LOOP =>
          rw [htok] at h
          obtain ⟨h1, h2⟩ := ih ((ip + 1) :: x :: stail) (ip + 1) j hn2 h
          rw [htok] at hpd2
          refine ⟨by omega, ?_⟩
          simp only [List.length_cons] at h2 ⊢
          simp only [tokDelta] at hpd2
          push_cast at h2 ⊢
          omega
        | END_LOOP =>
          rw [htok] at h
          obtain ⟨h1, h2⟩ := ih stail (ip + 1) j hn2 h
          rw [htok] at hpd2
          refine ⟨by omega, ?_⟩
          simp only [List.length_cons]
          simp only [tokDelta] at hpd2
          push_cast at h2 ⊢
          omega
        | SHIFT_LEFT =>
          rw [htok] at h
          obtain ⟨h1, h2⟩ := ih (x :: stail) (ip + 1) j hn2 h
          rw [htok] at hpd2
          simp only [tokDelta] at hpd2
          exact ⟨by omega, by omega⟩
        | SHIFT_RIGHT =>
          rw [htok] at h
          obtain ⟨h1, h2⟩ := ih (x :: stail) (ip + 1) j hn2 h
          rw [htok] at hpd2
          simp only [tokDelta] at hpd2
          exact ⟨by omega, by omega⟩
        | INCREMENT =>
          rw [htok] at h
          obtain ⟨h1, h2⟩ := ih (x :: stail) (ip + 1) j hn2 h
          rw [htok] at hpd2
          simp only [tokDelta] at hpd2
          exact ⟨by omega, by omega⟩
        | DECREMENT =>
          rw [htok] at h
          obtain ⟨h1, h2⟩ := ih (x :: stail) (ip + 1) j hn2 h
          rw [htok] at hpd2
          simp only [tokDelta] at hpd2
          exact ⟨by omega, by omega⟩
        | OUT =>
          rw [htok] at h
          obtain ⟨h1, h2⟩ := ih (x :: stail) (ip + 1) j hn2 h
          rw [htok] at hpd2
          simp only [tokDelta] at hpd2
          exact ⟨by omega, by omega⟩
        | IN =>
          rw [htok] at h
          obtain ⟨h1, h2⟩ := ih (x :: stail) (ip + 1) j hn2 h
          rw [htok] at hpd2
          simp only [tokDelta] at hpd2
          exact ⟨by omega, by omega⟩
      · rw [dif_neg hlt] at h
        cases h

/-- The Loop Resolver's depth counter as the spec words it: seeded at 1 at
the `LoopStart` at `ip`, updated by each token scanned forward, its value
after the token at position `k` has been scanned. -/
def seededDepth (ts : List Token) (ip k : Nat) : Int :=
  1 + (((ts.drop (ip + 1)).take (k - ip)).map tokDelta).sum

/-- `j` is the matching `LoopEnd` for the `LoopStart` at `ip`: the first
position after `ip` at which the depth seeded at 1 reaches 0. -/
def isMatch (ts : List Token) (ip j : Nat) : Prop :=
  ip < j ∧ j < ts.length ∧ seededDepth ts ip j = 0 ∧
    ∀ k, ip < k → k < j → seededDepth ts ip k ≠ 0

lemma seededDepth_pd (ts : List Token) {ip k : Nat} (h : ip ≤ k) :
    seededDepth ts ip k = 1 + pd ts (k + 1) - pd ts (ip + 1) := by
  have h1 : k + 1 = (ip + 1) + (k - ip) := by omega
  unfold seededDepth pd
  rw [h1, List.take_add, List.map_append, List.sum_append]
  ring

/-- Completeness of the `skip_loop` scan: starting with a non-empty stack
of size `d` at position `ip`, if `j` is the first later position where the
running depth `d + (pd (k+1) - pd (ip+1))` reaches 0, the scan stops
exactly there. -/
lemma skip_loop_aux_complete (ts : List Token) :
    ∀ (n : Nat) (stack : List Nat) (ip j : Nat),
      j - ip ≤ n →
      0 < stack.length →
      ip < j → j < ts.length →
      pd ts (j + 1) = pd ts (ip + 1) - stack.length →
      (∀ k, ip < k → k < j → pd ts (k + 1) ≠ pd ts (ip + 1) - stack.length) →
      skip_loop_aux ts stack ip = some j := by
  intro n
  induction n with
  | zero => intro stack ip j hn hs hij hjl hpdj hmin; omega
  | succ n ih =>
    intro stack ip j hn hs hij hjl hpdj hmin
    cases stack with
    | nil => simp at hs
    | cons x stail =>
      have hlt : ip + 1 < ts.length := by omega
      rw [skip_loop_aux, dif_pos hlt]
      have hget : ts.get? (ip + 1) = some (ts.get ⟨ip + 1, hlt⟩) :=
        List.get?_eq_get hlt
      have hpd2 : pd ts (ip + 1 + 1) = pd ts (ip + 1) + tokDelta (ts.get ⟨ip + 1, hlt⟩) :=
        pd_succ ts hget
      simp only [List.length_cons] at hpdj hmin
      push_cast at hpdj hmin
      cases htok : ts.get ⟨ip + 1, hlt⟩ with
      | START_LOOP =>
        rw [htok] at hpd2
        simp only [tokDelta] at hpd2
        show skip_loop_aux ts ((ip + 1) :: x :: stail) (ip + 1) = some j
        have hij2 : ip + 1 < j := by
          rcases Nat.lt_or_ge (ip + 1) j with h' | h'
          · exact h'
          · exfalso
            have hje : j = ip + 1 := by omega
            subst hje
            omega
        apply ih ((ip + 1) :: x :: stail) (ip + 1) j (by omega) (by simp) hij2 hjl
        · simp only [List.length_cons]
          push_cast
          omega
        · intro k hk1 hk2 heq
          apply hmin k (by omega) hk2
          simp only [List.length_cons] at heq
          push_cast at heq
          omega
      | END_LOOP =>
        rw [htok] at hpd2
        simp only [tokDelta] at hpd2
        show skip_loop_aux ts stail (ip + 1) = some j
        cases stail with
        | nil =>
          have hje : j = ip + 1 := by
            rcases Nat.lt_or_ge (ip + 1) j with h' | h'
            · exfalso
              apply hmin (ip + 1) (by omega) h'
              simp only [List.length_nil]
              push_cast
              omega
            · omega
          subst hje
          simp only [skip_loop_aux]
        | cons y ytail =>
          have hij2 : ip + 1 < j := by
            rcases Nat.lt_or_ge (ip + 1) j with h' | h'
            · exact h'
            · exfalso
              have hje : j = ip + 1 := by omega
              subst hje
              simp only [List.length_cons] at hpdj
              push_cast at hpdj
              omega
          apply ih (y :: ytail) (ip + 1) j (by omega) (by simp) hij2 hjl
          · simp only [List.length_cons]
            push_cast
            simp only [List.length_cons] at hpdj
            push_cast at hpdj
            omega
          · intro k hk1 hk2 heq
            apply hmin k (by omega) hk2
            simp only [List.length_cons] at heq ⊢
            push_cast at heq ⊢
            omega
      | SHIFT_LEFT =>
        rw [htok] at hpd2
        simp only [tokDelta] at hpd2
        show skip_loop_aux ts (x :: stail) (ip + 1) = some j
        have hij2 : ip + 1 < j := by
          rcases Nat.lt_or_ge (ip + 1) j with h' | h'
          · exact h'
          · exfalso
            have hje : j = ip + 1 := by omega
            subst hje
            omega
        apply ih (x :: stail) (ip + 1) j (by omega) (by simp) hij2 hjl
        · simp only [List.length_cons]
          push_cast
          omega
        · intro k hk1 hk2 heq
          apply hmin k (by omega) hk2
          simp only [List.length_cons] at heq
          push_cast at heq
          omega
      | SHIFT_RIGHT =>
        rw [htok] at hpd2
        simp only [tokDelta] at hpd2
        show skip_loop_aux ts (x :: stail) (ip + 1) = some j
        have hij2 : ip + 1 < j := by
          rcases Nat.lt_or_ge (ip + 1) j with h' | h'
          · exact h'
          · exfalso
            have hje : j = ip + 1 := by omega
            subst hje
            omega
        apply ih (x :: stail) (ip + 1) j (by omega) (by simp) hij2 hjl
        · simp only [List.length_cons]
          push_cast
          omega
        · intro k hk1 hk2 heq
          apply hmin k (by omega) hk2
          simp only [List.length_cons] at heq
          push_cast at heq
          omega
      | INCREMENT =>
        rw [htok] at hpd2
        simp only [tokDelta] at hpd2
        show skip_loop_aux ts (x :: stail) (ip + 1) = some j
        have hij2 : ip + 1 < j := by
          rcases Nat.lt_or_ge (ip + 1) j with h' | h'
          · exact h'
          · exfalso
            have hje : j = ip + 1 := by omega
            subst hje
            omega
        apply ih (x :: stail) (ip + 1) j (by omega) (by simp) hij2 hjl
        · simp only [List.length_cons]
          push_cast
          omega
        · intro k hk1 hk2 heq
          apply hmin k (by omega) hk2
          simp only [List.length_cons] at heq
          push_cast at heq
          omega
      | DECREMENT =>
        rw [htok] at hpd2
        simp only [tokDelta] at hpd2
        show skip_loop_aux ts (x :: stail) (ip + 1) = some j
        have hij2 : ip + 1 < j := by
          rcases Nat.lt_or_ge (ip + 1) j with h' | h'
          · exact h'
          · exfalso
            have hje : j = ip + 1 := by omega
            subst hje
            omega
        apply ih (x :: stail) (ip + 1) j (by omega) (by simp) hij2 hjl
        · simp only [List.length_cons]
          push_cast
          omega
        · intro k hk1 hk2 heq
          apply hmin k (by omega) hk2
          simp only [List.length_cons] at heq
          push_cast at heq
          omega
      | OUT =>
        rw [htok] at hpd2
        simp only [tokDelta] at hpd2
        show skip_loop_aux ts (x :: stail) (ip + 1) = some j
        have hij2 : ip + 1 < j := by
          rcases Nat.lt_or_ge (ip + 1) j with h' | h'
          · exact h'
          · exfalso
            have hje : j = ip + 1 := by omega
            subst hje
            omega
        apply ih (x :: stail) (ip + 1) j (by omega) (by simp) hij2 hjl
        · simp only [List.length_cons]
          push_cast
          omega
        · intro k hk1 hk2 heq
          apply hmin k (by omega) hk2
          simp only [List.length_cons] at heq
          push_cast at heq
          omega
      | IN =>
        rw [htok] at hpd2
        simp only [tokDelta] at hpd2
        show skip_loop_aux ts (x :: stail) (ip + 1) = some j
        have hij2 : ip + 1 < j := by
          rcases Nat.lt_or_ge (ip + 1) j with h' | h'
          · exact h'
          · exfalso
            have hje : j = ip + 1 := by omega
            subst hje
            omega
        apply ih (x :: stail) (ip + 1) j (by omega) (by simp) hij2 hjl
        · simp only [List.length_cons]
          push_cast
          omega
        · intro k hk1 hk2 heq
          apply hmin k (by omega) hk2
          simp only [List.length_cons] at heq
          push_cast at heq
          omega

/-- The `skip_loop` scan finds exactly the matching `LoopEnd`. -/
lemma skip_loop_eq_of_isMatch (ts : List Token) (ip j : Nat)
    (h : isMatch ts ip j) : skip_loop ip ts = some j := by
  obtain ⟨h1, h2, h3, h4⟩ := h
  rw [seededDepth_pd ts (Nat.le_of_lt h1)] at h3
  apply skip_loop_aux_complete ts (j - ip) [ip] ip j (Nat.le_refl _) (by simp) h1 h2
  · simp only [List.length_cons, List.length_nil]
    push_cast
    omega
  · intro k hk1 hk2 heq
    apply h4 k hk1 hk2
    rw [seededDepth_pd ts (Nat.le_of_lt hk1)]
    simp only [List.length_cons, List.length_nil] at heq
    push_cast at heq
    omega

/-- Bracket-balance scan over raw source characters: tracks the number of
currently unmatched `[`, failing (`none`) at the first `]` seen at depth 0.
`some 0` at the end is the claims' notion of balanced brackets. -/
def bracketScan : List Char → Nat → Option Nat
  | [], d => some d
  | c :: rest, d =>
    if c = '[' then bracketScan rest (d + 1)
    else if c = ']' then
      if d = 0 then none else bracketScan rest (d - 1)
    else bracketScan rest d

lemma AC_lbracket : ALLOWED_CHARS '[' = some .START_LOOP := by decide

lemma AC_rbracket : ALLOWED_CHARS ']' = some .END_LOOP := by decide

lemma AC_ne_brackets {c : Char} {t : Token} (h1 : ¬ c = '[') (h2 : ¬ c = ']')
    (h : ALLOWED_CHARS c = some t) :
    t ≠ .START_LOOP ∧ t ≠ .END_LOOP := by
  unfold ALLOWED_CHARS at h
  split_ifs at h <;> simp_all
  all_goals subst h
  all_goals decide

/-- On balanced remaining input (relative to the current bracket stack),
the lexer loop succeeds and appends exactly one token per recognized
character, in source order. -/
lemma lexAux_ok_of_balanced :
    ∀ (cs : List Char) (line idx : Nat) (stack : List (Nat × Nat))
      (acc : List Token),
      bracketScan cs stack.length = some 0 →
      lexAux cs line idx stack acc = .ok (acc ++ cs.filterMap ALLOWED_CHARS) := by
  intro cs
  induction cs with
  | nil =>
    intro line idx stack acc h
    simp only [bracketScan, Option.some.injEq] at h
    have hst : stack = [] := List.length_eq_zero.mp h
    subst hst
    simp [lexAux]
  | cons c rest ih =>
    intro line idx stack acc h
    by_cases hb1 : c = '['
    · subst hb1
      rw [bracketScan, if_pos rfl] at h
      simp only [lexAux, AC_lbracket, if_pos rfl]
      rw [ih line (idx + 1) ((line, idx) :: stack) (acc ++ [Token.START_LOOP])
        (by simpa using h)]
      simp [AC_lbracket]
    · by_cases hb2 : c = ']'
      · subst hb2
        rw [bracketScan, if_neg (by decide), if_pos rfl] at h
        cases hst : stack with
        | nil =>
          rw [hst] at h
          simp at h
        | cons p ptail =>
          rw [hst] at h
          rw [if_neg (by simp)] at h
          simp only [List.length_cons, Nat.add_sub_cancel] at h
          rw [show lexAux (']' :: rest) line idx (p :: ptail) acc =
              lexAux rest line (idx + 1) ptail (acc ++ [Token.END_LOOP]) from rfl]
          rw [ih line (idx + 1) ptail (acc ++ [Token.END_LOOP]) h]
          simp [AC_rbracket]
      · rw [bracketScan, if_neg hb1, if_neg hb2] at h
        cases hAC : ALLOWED_CHARS c with
        | none =>
          simp only [lexAux, hAC]
          rw [ih _ (idx + 1) stack acc h]
          simp [List.filterMap_cons, hAC]
        | some t =>
          simp only [lexAux, hAC, if_neg hb1, if_neg hb2]
          rw [ih line (idx + 1) stack (acc ++ [t]) h]
          simp [List.filterMap_cons, hAC]

/-- Number of newline characters in a character list: the lexer's
`line_no` after scanning it. -/
def countNl : List Char → Nat
  | [] => 0
  | c :: rest => (if c = '\n' then 1 else 0) + countNl rest

lemma countNl_cons (c : Char) (l : List Char) :
    countNl (c :: l) = (if c = '\n' then 1 else 0) + countNl l := rfl

/-- If position `i` of the remaining input holds a `]` and the characters
before it leave the bracket stack exactly empty (with no earlier failure),
the lexer loop raises the unmatched-close error with the line counter
advanced by the newlines before `i` and the raw offset `idx + i`. -/
lemma lexAux_unmatchedClose :
    ∀ (cs : List Char) (i line idx : Nat) (stack : List (Nat × Nat))
      (acc : List Token),
      bracketScan (cs.take i) stack.length = some 0 →
      cs.get? i = some ']' →
      lexAux cs line idx stack acc =
        .error (.unmatchedClose (line + countNl (cs.take i)) (idx + i)) := by
  intro cs
  induction cs with
  | nil =>
    intro i line idx stack acc hscan hget
    simp at hget
  | cons c rest ih =>
    intro i line idx stack acc hscan hget
    cases i with
    | zero =>
      rw [List.get?_cons_zero, Option.some.injEq] at hget
      subst hget
      simp only [List.take_zero] at hscan ⊢
      simp only [bracketScan, Option.some.injEq] at hscan
      have hst : stack = [] := List.length_eq_zero.mp hscan
      subst hst
      rw [show lexAux (']' :: rest) line idx [] acc =
          Except.error (LexException.unmatchedClose line idx) from rfl]
      simp [countNl]
    | succ n =>
      rw [List.get?_cons_succ] at hget
      rw [List.take_succ_cons] at hscan ⊢
      by_cases hb1 : c = '['
      · subst hb1
        rw [bracketScan, if_pos rfl] at hscan
        rw [show lexAux ('[' :: rest) line idx stack acc =
            lexAux rest line (idx + 1) ((line, idx) :: stack)
              (acc ++ [Token.START_LOOP]) from rfl]
        rw [ih n line (idx + 1) ((line, idx) :: stack) (acc ++ [Token.START_LOOP])
          (by simpa using hscan) hget]
        simp only [Except.error.injEq, LexException.unmatchedClose.injEq,
          countNl_cons]
        rw [if_neg (by decide)]
        omega
      · by_cases hb2 : c = ']'
        · subst hb2
          rw [bracketScan, if_neg (by decide), if_pos rfl] at hscan
          cases hst : stack with
          | nil =>
            rw [hst] at hscan
            simp at hscan
          | cons p ptail =>
            rw [hst] at hscan
            rw [if_neg (by simp)] at hscan
            simp only [List.length_cons, Nat.add_sub_cancel] at hscan
            rw [show lexAux (']' :: rest) line idx (p :: ptail) acc =
                lexAux rest line (idx + 1) ptail (acc ++ [Token.END_LOOP]) from rfl]
            rw [ih n line (idx + 1) ptail (acc ++ [Token.END_LOOP]) hscan hget]
            simp only [Except.error.injEq, LexException.unmatchedClose.injEq,
              countNl_cons]
            rw [if_neg (by decide)]
            omega
        · rw [bracketScan, if_neg hb1, if_neg hb2] at hscan
          cases hAC : ALLOWED_CHARS c with
          | none =>
            simp only [lexAux, hAC]
            by_cases hnl : c = '\n'
            · rw [if_pos hnl, ih n (line + 1) (idx + 1) stack acc hscan hget]
              simp only [Except.error.injEq, LexException.unmatchedClose.injEq,
                countNl_cons]
              rw [if_pos hnl]
              omega
            · rw [if_neg hnl, ih n line (idx + 1) stack acc hscan hget]
              simp only [Except.error.injEq, LexException.unmatchedClose.injEq,
                countNl_cons]
              rw [if_neg hnl]
              omega
          | some t =>
            simp only [lexAux, hAC, if_neg hb1, if_neg hb2]
            rw [ih n line (idx + 1) stack (acc ++ [t]) hscan hget]
            have hnl : ¬ c = '\n' := by
              intro he
              subst he
              simp [ALLOWED_CHARS] at hAC
            simp only [Except.error.injEq, LexException.unmatchedClose.injEq,
              countNl_cons]
            rw [if_neg hnl]
            omega

/-- A successful lexer run certifies that the source's brackets balance. -/
lemma bracketScan_of_lexAux_ok :
    ∀ (cs : List Char) (line idx : Nat) (stack : List (Nat × Nat))
      (acc r : List Token),
      lexAux cs line idx stack acc = .ok r →
      bracketScan cs stack.length = some 0 := by
  intro cs
  induction cs with
  | nil =>
    intro line idx stack acc r h
    cases stack with
    | nil => simp [bracketScan]
    | cons p ptail => simp [lexAux] at h
  | cons c rest ih =>
    intro line idx stack acc r h
    by_cases hb1 : c = '['
    · subst hb1
      rw [show lexAux ('[' :: rest) line idx stack acc =
          lexAux rest line (idx + 1) ((line, idx) :: stack)
            (acc ++ [Token.START_LOOP]) from rfl] at h
      rw [bracketScan, if_pos rfl]
      simpa using ih line (idx + 1) ((line, idx) :: stack)
        (acc ++ [Token.START_LOOP]) r h
    · by_cases hb2 : c = ']'
      · subst hb2
        cases stack with
        | nil =>
          rw [show lexAux (']' :: rest) line idx [] acc =
              Except.error (LexException.unmatchedClose line idx) from rfl] at h
          cases h
        | cons p ptail =>
          rw [show lexAux (']' :: rest) line idx (p :: ptail) acc =
              lexAux rest line (idx + 1) ptail (acc ++ [Token.END_LOOP]) from rfl] at h
          rw [bracketScan, if_neg (by decide), if_pos rfl, if_neg (by simp)]
          simp only [List.length_cons, Nat.add_sub_cancel]
          exact ih line (idx + 1) ptail (acc ++ [Token.END_LOOP]) r h
      · rw [bracketScan, if_neg hb1, if_neg hb2]
        cases hAC : ALLOWED_CHARS c with
        | none =>
          simp only [lexAux, hAC] at h
          exact ih _ (idx + 1) stack acc r h
        | some t =>
          simp only [lexAux, hAC, if_neg hb1, if_neg hb2] at h
          exact ih line (idx + 1) stack (acc ++ [t]) r h

/-- The bracket-balance scan replayed over the lexed token stream. -/
def tokScan : List Token → Nat → Option Nat
  | [], d => some d
  | t :: rest, d =>
    match t with
    | .START_LOOP => tokScan rest (d + 1)
    | .END_LOOP => if d = 0 then none else tokScan rest (d - 1)
    | _ => tokScan rest d

/-- The character scan and the token scan agree: lexing drops exactly the
non-instruction characters and maps `[` and `]` to the loop tokens. -/
lemma tokScan_filterMap :
    ∀ (cs : List Char) (d : Nat),
      bracketScan cs d = tokScan (cs.filterMap ALLOWED_CHARS) d := by
  intro cs
  induction cs with
  | nil => intro d; rfl
  | cons c rest ih =>
    intro d
    by_cases hb1 : c = '['
    · subst hb1
      rw [bracketScan, if_pos rfl]
      rw [show ('[' :: rest).filterMap ALLOWED_CHARS =
          Token.START_LOOP :: rest.filterMap ALLOWED_CHARS from by
        simp [List.filterMap_cons, AC_lbracket]]
      rw [show tokScan (Token.START_LOOP :: rest.filterMap ALLOWED_CHARS) d =
          tokScan (rest.filterMap ALLOWED_CHARS) (d + 1) from rfl]
      exact ih (d + 1)
    · by_cases hb2 : c = ']'
      · subst hb2
        rw [bracketScan, if_neg (by decide), if_pos rfl]
        rw [show (']' :: rest).filterMap ALLOWED_CHARS =
            Token.END_LOOP :: rest.filterMap ALLOWED_CHARS from by
          simp [List.filterMap_cons, AC_rbracket]]
        rw [show tokScan (Token.END_LOOP :: rest.filterMap ALLOWED_CHARS) d =
            (if d = 0 then none else tokScan (rest.filterMap ALLOWED_CHARS) (d - 1))
          from rfl]
        by_cases hd : d = 0
        · rw [if_pos hd, if_pos hd]
        · rw [if_neg hd, if_neg hd]
          exact ih (d - 1)
      · rw [bracketScan, if_neg hb1, if_neg hb2]
        cases hAC : ALLOWED_CHARS c with
        | none =>
          rw [show (c :: rest).filterMap ALLOWED_CHARS =
              rest.filterMap ALLOWED_CHARS from by simp [List.filterMap_cons, hAC]]
          exact ih d
        | some t =>
          obtain ⟨ht1, ht2⟩ := AC_ne_brackets hb1 hb2 hAC
          rw [show (c :: rest).filterMap ALLOWED_CHARS =
              t :: rest.filterMap ALLOWED_CHARS from by
            simp [List.filterMap_cons, hAC]]
          cases t with
          | START_LOOP => exact absurd rfl ht1
          | END_LOOP => exact absurd rfl ht2
          | SHIFT_LEFT => exact ih d
          | SHIFT_RIGHT => exact ih d
          | INCREMENT => exact ih d
          | DECREMENT => exact ih d
          | OUT => exact ih d
          | IN => exact ih d

lemma pd_nil (k : Nat) : pd [] k = 0 := by simp [pd]

lemma pd_cons (t : Token) (rest : List Token) (k : Nat) :
    pd (t :: rest) (k + 1) = tokDelta t + pd rest k := by
  simp [pd, List.take_succ_cons]

/-- A successful token scan bounds every prefix depth from below and fixes
the total depth. -/
lemma tokScan_pd :
    ∀ (ts : List Token) (d e : Nat), tokScan ts d = some e →
      ((e : Int) = (d : Int) + pd ts ts.length ∧
        ∀ k, 0 ≤ (d : Int) + pd ts k) := by
  intro ts
  induction ts with
  | nil =>
    intro d e h
    simp only [tokScan, Option.some.injEq] at h
    subst h
    constructor
    · simp [pd_nil]
    · intro k
      simp [pd_nil]
  | cons t rest ih =>
    intro d e h
    cases t with
    | START_LOOP =>
      rw [show tokScan (Token.START_LOOP :: rest) d = tokScan rest (d + 1)
        from rfl] at h
      obtain ⟨ih1, ih2⟩ := ih (d + 1) e h
      constructor
      · rw [List.length_cons, pd_cons]
        simp only [tokDelta]
        push_cast at ih1 ⊢
        omega
      · intro k
        cases k with
        | zero => simp [pd]
        | succ k =>
          rw [pd_cons]
          have := ih2 k
          simp only [tokDelta]
          push_cast at this ⊢
          omega
    | END_LOOP =>
      rw [show tokScan (Token.END_LOOP :: rest) d =
          (if d = 0 then none else tokScan rest (d - 1)) from rfl] at h
      by_cases hd : d = 0
      · rw [if_pos hd] at h
        cases h
      · rw [if_neg hd] at h
        obtain ⟨ih1, ih2⟩ := ih (d - 1) e h
        constructor
        · rw [List.length_cons, pd_cons]
          simp only [tokDelta]
          push_cast at ih1 ⊢
          omega
        · intro k
          cases k with
          | zero => simp [pd]
          | succ k =>
            rw [pd_cons]
            have := ih2 k
            simp only [tokDelta]
            push_cast at this ⊢
            omega
    | SHIFT_LEFT =>
      rw [show tokScan (Token.SHIFT_LEFT :: rest) d = tokScan rest d from rfl] at h
      obtain ⟨ih1, ih2⟩ := ih d e h
      constructor
      · rw [List.length_cons, pd_cons]
        simp only [tokDelta]
        omega
      · intro k
        cases k with
        | zero => simp [pd]
        | succ k =>
          rw [pd_cons]
          have := ih2 k
          simp only [tokDelta]
          omega
    | SHIFT_RIGHT =>
      rw [show tokScan (Token.SHIFT_RIGHT :: rest) d = tokScan rest d from rfl] at h
      obtain ⟨ih1, ih2⟩ := ih d e h
      constructor
      · rw [List.length_cons, pd_cons]
        simp only [tokDelta]
        omega
      · intro k
        cases k with
        | zero => simp [pd]
        | succ k =>
          rw [pd_cons]
          have := ih2 k
          simp only [tokDelta]
          omega
    | INCREMENT =>
      rw [show tokScan (Token.INCREMENT :: rest) d = tokScan rest d from rfl] at h
      obtain ⟨ih1, ih2⟩ := ih d e h
      constructor
      · rw [List.length_cons, pd_cons]
        simp only [tokDelta]
        omega
      · intro k
        cases k with
        | zero => simp [pd]
        | succ k =>
          rw [pd_cons]
          have := ih2 k
          simp only [tokDelta]
          omega
    | DECREMENT =>
      rw [show tokScan (Token.DECREMENT :: rest) d = tokScan rest d from rfl] at h
      obtain ⟨ih1, ih2⟩ := ih d e h
      constructor
      · rw [List.length_cons, pd_cons]
        simp only [tokDelta]
        omega
      · intro k
        cases k with
        | zero => simp [pd]
        | succ k =>
          rw [pd_cons]
          have := ih2 k
          simp only [tokDelta]
          omega
    | OUT =>
      rw [show tokScan (Token.OUT :: rest) d = tokScan rest d from rfl] at h
      obtain ⟨ih1, ih2⟩ := ih d e h
      constructor
      · rw [List.length_cons, pd_cons]
        simp only [tokDelta]
        omega
      · intro k
        cases k with
        | zero => simp [pd]
        | succ k =>
          rw [pd_cons]
          have := ih2 k
          simp only [tokDelta]
          omega
    | IN =>
      rw [show tokScan (Token.IN :: rest) d = tokScan rest d from rfl] at h
      obtain ⟨ih1, ih2⟩ := ih d e h
      constructor
      · rw [List.length_cons, pd_cons]
        simp only [tokDelta]
        omega
      · intro k
        cases k with
        | zero => simp [pd]
        | succ k =>
          rw [pd_cons]
          have := ih2 k
          simp only [tokDelta]
          omega

/-- A stream returned by a successful `lex` is the `filterMap` image of the
source characters. -/
lemma lex_ok_filterMap {cs : List Char} {ts : List Token}
    (h : lex cs = .ok ts) : ts = cs.filterMap ALLOWED_CHARS := by
  have hb : bracketScan cs 0 = some 0 := by
    simpa using bracketScan_of_lexAux_ok cs 0 0 [] [] ts h
  have hok := lexAux_ok_of_balanced cs 0 0 [] [] (by simpa using hb)
  rw [lex] at h
  rw [hok] at h
  simpa using h.symm

/-- A stream returned by a successful `lex` is bracket-balanced. -/
lemma lex_ok_balanced {cs : List Char} {ts : List Token}
    (h : lex cs = .ok ts) : BalancedTok ts := by
  have hfm := lex_ok_filterMap h
  have hb : bracketScan cs 0 = some 0 := by
    simpa using bracketScan_of_lexAux_ok cs 0 0 [] [] ts h
  have ht : tokScan ts 0 = some 0 := by
    rw [hfm, ← tokScan_filterMap]
    exact hb
  obtain ⟨h1, h2⟩ := tokScan_pd ts 0 0 ht
  constructor
  · intro k
    simpa using h2 k
  · push_cast at h1
    omega

lemma normIdx_inbounds {len : Nat} {i : Int} (h1 : 0 ≤ i) (h2 : i < (len : Int)) :
    normIdx len i = some i.toNat := by
  unfold normIdx
  rw [if_pos ⟨h1, h2⟩]

/-- No instruction changes the length of the tape, whatever the step
outcome. -/
lemma step_memlen (ts : List Token) (mode : Bool) (st : ExecState) :
    ((step ts mode st).state).memory.length = st.memory.length := by
  unfold step
  cases hget : ts.get? st.ip with
  | none => rfl
  | some t =>
    cases t <;> simp only [stepTok] <;>
      (repeat' split) <;>
      simp [StepRes.state, List.length_set]

/-- Over a whole run, the tape length never changes. -/
lemma run_memlen (ts : List Token) (mode : Bool) :
    ∀ (fuel : Nat) (st : ExecState),
      ((parse_and_execute ts mode fuel st).state).memory.length =
        st.memory.length := by
  intro fuel
  induction fuel with
  | zero => intro st; rfl
  | succ fuel ih =>
    intro st
    rw [parse_and_execute]
    by_cases hip : st.ip < ts.length
    · rw [if_pos hip]
      cases hstep : step ts mode st with
      | next st2 =>
        have h1 := step_memlen ts mode st
        rw [hstep] at h1
        rw [ih st2]
        exact h1
      | exit1 st2 =>
        have h1 := step_memlen ts mode st
        rw [hstep] at h1
        exact h1
      | err e st2 =>
        have h1 := step_memlen ts mode st
        rw [hstep] at h1
        exact h1
    · rw [if_neg hip]
      rfl

/-- Frame property of one fall-through step: cells other than the one the
pointer resolves to are untouched. -/
lemma step_frame (ts : List Token) (mode : Bool) (st st2 : ExecState) (i : Nat)
    (h : step ts mode st = .next st2)
    (hi : normIdx st.memory.length st.ptr ≠ some i) :
    st2.memory.get? i = st.memory.get? i := by
  unfold step at h
  cases hget : ts.get? st.ip with
  | none => rw [hget] at h; injection h
  | some t =>
    rw [hget] at h
    cases t <;> simp only [stepTok] at h <;> (repeat' split at h) <;>
      (first | (injection h with h3; subst h3) | injection h) <;>
      simp_all [List.get?_set]

/-- The pointer moves, output, and loop bookkeeping instructions leave the
whole tape unchanged on fall-through. -/
lemma step_pure (ts : List Token) (mode : Bool) (st st2 : ExecState) (t : Token)
    (hget : ts.get? st.ip = some t)
    (ht : t = .SHIFT_LEFT ∨ t = .SHIFT_RIGHT ∨ t = .OUT ∨
      t = .START_LOOP ∨ t = .END_LOOP)
    (h : step ts mode st = .next st2) :
    st2.memory = st.memory := by
  unfold step at h
  rw [hget] at h
  rcases ht with rfl | rfl | rfl | rfl | rfl <;>
    simp only [stepTok] at h <;> (repeat' split at h) <;>
    (first | (injection h with h3; subst h3) | injection h) <;> rfl

/-- With a non-empty tape and an in-range pointer, one step keeps the
pointer in range and can raise neither a memory `IndexError` nor the
`ZeroDivisionError` of `% 0`: every pointer and cell access is in bounds. -/
lemma step_ptr_inv (ts : List Token) (mode : Bool) (st : ExecState)
    (h1 : 0 < st.memory.length) (h2 : 0 ≤ st.ptr)
    (h3 : st.ptr < (st.memory.length : Int)) :
    (∀ st2, step ts mode st = .next st2 →
      0 < st2.memory.length ∧ 0 ≤ st2.ptr ∧
        st2.ptr < (st2.memory.length : Int)) ∧
    (step ts mode st).errOf ≠ some .memIndexError ∧
    (step ts mode st).errOf ≠ some .zeroDivisionError := by
  have hni : normIdx st.memory.length st.ptr = some st.ptr.toNat :=
    normIdx_inbounds h2 h3
  have htn : st.ptr.toNat < st.memory.length := by omega
  have hlz : ¬ st.memory.length = 0 := by omega
  have hlzi : (st.memory.length : Int) ≠ 0 := by
    intro hx
    omega
  have hgm : st.memory.get? st.ptr.toNat ≠ none := by
    rw [Ne, List.get?_eq_none]
    omega
  unfold step
  cases hget : ts.get? st.ip with
  | none =>
    refine ⟨?_, by simp [StepRes.errOf], by simp [StepRes.errOf]⟩
    intro st2 hx
    injection hx
  | some t =>
    cases t with
    | SHIFT_LEFT =>
      simp only [stepTok, if_neg hlz]
      refine ⟨?_, by simp [StepRes.errOf], by simp [StepRes.errOf]⟩
      intro st2 hx
      injection hx with h3x
      subst h3x
      exact ⟨h1, Int.emod_nonneg _ hlzi, Int.emod_lt_of_pos _ (by omega)⟩
    | SHIFT_RIGHT =>
      simp only [stepTok, if_neg hlz]
      refine ⟨?_, by simp [StepRes.errOf], by simp [StepRes.errOf]⟩
      intro st2 hx
      injection hx with h3x
      subst h3x
      exact ⟨h1, Int.emod_nonneg _ hlzi, Int.emod_lt_of_pos _ (by omega)⟩
    | INCREMENT =>
      simp only [stepTok, hni]
      cases hg : st.memory.get? st.ptr.toNat with
      | none => exact absurd hg hgm
      | some v =>
        cases v with
        | intV n =>
          refine ⟨?_, by simp [StepRes.errOf], by simp [StepRes.errOf]⟩
          intro st2 hx
          injection hx with h3x
          subst h3x
          refine ⟨by simpa [List.length_set] using h1, h2, ?_⟩
          simpa [List.length_set] using h3
        | strV s =>
          refine ⟨?_, by simp [StepRes.errOf], by simp [StepRes.errOf]⟩
          intro st2 hx
          injection hx
    | DECREMENT =>
      simp only [stepTok, hni]
      cases hg : st.memory.get? st.ptr.toNat with
      | none => exact absurd hg hgm
      | some v =>
        cases v with
        | intV n =>
          refine ⟨?_, by simp [StepRes.errOf], by simp [StepRes.errOf]⟩
          intro st2 hx
          injection hx with h3x
          subst h3x
          refine ⟨by simpa [List.length_set] using h1, h2, ?_⟩
          simpa [List.length_set] using h3
        | strV s =>
          refine ⟨?_, by simp [StepRes.errOf], by simp [StepRes.errOf]⟩
          intro st2 hx
          injection hx
    | OUT =>
      simp only [stepTok, hni]
      cases hg : st.memory.get? st.ptr.toNat with
      | none => exact absurd hg hgm
      | some v =>
        by_cases hm : mode = true
        · simp only [hm, if_true]
          refine ⟨?_, by simp [StepRes.errOf], by simp [StepRes.errOf]⟩
          intro st2 hx
          injection hx with h3x
          subst h3x
          exact ⟨h1, h2, h3⟩
        · simp only [if_neg hm]
          cases v with
          | strV s =>
            refine ⟨?_, by simp [StepRes.errOf], by simp [StepRes.errOf]⟩
            intro st2 hx
            injection hx
          | intV n =>
            by_cases hn : 0 ≤ n ∧ n < 1114112
            · simp only [if_pos hn]
              refine ⟨?_, by simp [StepRes.errOf], by simp [StepRes.errOf]⟩
              intro st2 hx
              injection hx with h3x
              subst h3x
              exact ⟨h1, h2, h3⟩
            · simp only [if_neg hn]
              refine ⟨?_, by simp [StepRes.errOf], by simp [StepRes.errOf]⟩
              intro st2 hx
              injection hx
    | IN =>
      simp only [stepTok]
      cases hin : st.inputs with
      | nil =>
        refine ⟨?_, by simp [StepRes.errOf], by simp [StepRes.errOf]⟩
        intro st2 hx
        injection hx
      | cons s rest =>
        by_cases hm : mode = true
        · simp only [hm, if_true, hni]
          refine ⟨?_, by simp [StepRes.errOf], by simp [StepRes.errOf]⟩
          intro st2 hx
          injection hx with h3x
          subst h3x
          refine ⟨by simpa [List.length_set] using h1, h2, ?_⟩
          simpa [List.length_set] using h3
        · simp only [if_neg hm]
          cases hsl : s.toList with
          | nil =>
            refine ⟨?_, by simp [StepRes.errOf], by simp [StepRes.errOf]⟩
            intro st2 hx
            injection hx
          | cons c ctail =>
            cases ctail with
            | nil =>
              simp only [hni]
              refine ⟨?_, by simp [StepRes.errOf], by simp [StepRes.errOf]⟩
              intro st2 hx
              injection hx with h3x
              subst h3x
              refine ⟨by simpa [List.length_set] using h1, h2, ?_⟩
              simpa [List.length_set] using h3
            | cons c2 ctail2 =>
              refine ⟨?_, by simp [StepRes.errOf], by simp [StepRes.errOf]⟩
              intro st2 hx
              injection hx
    | START_LOOP =>
      simp only [stepTok, hni]
      cases hg : st.memory.get? st.ptr.toNat with
      | none => exact absurd hg hgm
      | some v =>
        by_cases hz : isZero v = true
        · simp only [hz, if_true]
          cases hsk : skip_loop st.ip ts with
          | none =>
            refine ⟨?_, by simp [StepRes.errOf], by simp [StepRes.errOf]⟩
            intro st2 hx
            injection hx
          | some j =>
            refine ⟨?_, by simp [StepRes.errOf], by simp [StepRes.errOf]⟩
            intro st2 hx
            injection hx with h3x
            subst h3x
            exact ⟨h1, h2, h3⟩
        · simp only [if_neg hz]
          refine ⟨?_, by simp [StepRes.errOf], by simp [StepRes.errOf]⟩
          intro st2 hx
          injection hx with h3x
          subst h3x
          exact ⟨h1, h2, h3⟩
    | END_LOOP =>
      simp only [stepTok, hni]
      cases hg : st.memory.get? st.ptr.toNat with
      | none => exact absurd hg hgm
      | some v =>
        by_cases hz : isZero v = true
        · simp only [hz, if_true]
          cases hst : st.loop_stack with
          | nil =>
            refine ⟨?_, by simp [StepRes.errOf], by simp [StepRes.errOf]⟩
            intro st2 hx
            injection hx
          | cons s rest =>
            refine ⟨?_, by simp [StepRes.errOf], by simp [StepRes.errOf]⟩
            intro st2 hx
            injection hx with h3x
            subst h3x
            exact ⟨h1, h2, h3⟩
        · simp only [if_neg hz]
          cases hst : st.loop_stack with
          | nil =>
            refine ⟨?_, by simp [StepRes.errOf], by simp [StepRes.errOf]⟩
            intro st2 hx
            injection hx
          | cons s rest =>
            refine ⟨?_, by simp [StepRes.errOf], by simp [StepRes.errOf]⟩
            intro st2 hx
            injection hx with h3x
            subst h3x
            exact ⟨h1, h2, h3⟩

/-- Over a whole run from a state with non-empty tape and in-range pointer,
no memory-bounds or modulo-by-zero error is ever raised. -/
lemma run_ptr_inv (ts : List Token) (mode : Bool) :
    ∀ (fuel : Nat) (st : ExecState),
      0 < st.memory.length → 0 ≤ st.ptr → st.ptr < (st.memory.length : Int) →
      (parse_and_execute ts mode fuel st).errOf ≠ some .memIndexError ∧
      (parse_and_execute ts mode fuel st).errOf ≠ some .zeroDivisionError := by
  intro fuel
  induction fuel with
  | zero =>
    intro st h1 h2 h3
    rw [parse_and_execute]
    exact ⟨by simp [Outcome.errOf], by simp [Outcome.errOf]⟩
  | succ fuel ih =>
    intro st h1 h2 h3
    rw [parse_and_execute]
    by_cases hip : st.ip < ts.length
    · rw [if_pos hip]
      obtain ⟨hnext, he1, he2⟩ := step_ptr_inv ts mode st h1 h2 h3
      cases hstep : step ts mode st with
      | next st2 =>
        obtain ⟨k1, k2, k3⟩ := hnext st2 hstep
        exact ih st2 k1 k2 k3
      | exit1 st2 => exact ⟨by simp [Outcome.errOf], by simp [Outcome.errOf]⟩
      | err e st2 =>
        rw [hstep] at he1 he2
        simp only [StepRes.errOf] at he1 he2
        constructor
        · simpa [Outcome.errOf] using he1
        · simpa [Outcome.errOf] using he2
    · rw [if_neg hip]
      exact ⟨by simp [Outcome.errOf], by simp [Outcome.errOf]⟩

/-- Well-formedness of the loop-entry stack: each recorded position holds a
`LoopStart` token, and the prefix depth at the `i`-th entry from the bottom
is exactly `i`, so the stack mirrors the loops currently open at `ip`. -/
def stackOK (ts : List Token) : List Nat → Prop
  | [] => True
  | s :: rest =>
    ts.get? s = some .START_LOOP ∧ pd ts s = (rest.length : Int) ∧
      stackOK ts rest

/-- Executor invariant tying the loop-entry stack to the bracket depth of
the tokens before `ip`. -/
def InvLoop (ts : List Token) (st : ExecState) : Prop :=
  pd ts st.ip = (st.loop_stack.length : Int) ∧ stackOK ts st.loop_stack

/-- On a balanced stream the invariant is preserved by every fall-through
step, and no step underflows the loop-entry stack. -/
lemma step_loop_inv (ts : List Token) (mode : Bool) (st : ExecState)
    (hbal : BalancedTok ts) (hinv : InvLoop ts st) (hip : st.ip < ts.length) :
    (∀ st2, step ts mode st = .next st2 → InvLoop ts st2) ∧
    (step ts mode st).errOf ≠ some .stackIndexError := by
  obtain ⟨hpd, hsok⟩ := hinv
  have hget : ts.get? st.ip = some (ts.get ⟨st.ip, hip⟩) := List.get?_eq_get hip
  have hpds : pd ts (st.ip + 1) = pd ts st.ip + tokDelta (ts.get ⟨st.ip, hip⟩) :=
    pd_succ ts hget
  unfold step
  rw [hget]
  cases htok : ts.get ⟨st.ip, hip⟩ with
  | SHIFT_LEFT =>
    rw [htok] at hpds
    simp only [tokDelta] at hpds
    simp only [stepTok]
    constructor
    · intro st2 hx
      split at hx
      · injection hx
      · injection hx with h3x
        subst h3x
        exact ⟨by simpa [hpds] using hpd, hsok⟩
    · split <;> simp [StepRes.errOf]
  | SHIFT_RIGHT =>
    rw [htok] at hpds
    simp only [tokDelta] at hpds
    simp only [stepTok]
    constructor
    · intro st2 hx
      split at hx
      · injection hx
      · injection hx with h3x
        subst h3x
        exact ⟨by simpa [hpds] using hpd, hsok⟩
    · split <;> simp [StepRes.errOf]
  | INCREMENT =>
    rw [htok] at hpds
    simp only [tokDelta] at hpds
    simp only [stepTok]
    constructor
    · intro st2 hx
      repeat' split at hx
      all_goals first
        | (injection hx with h3x; subst h3x;
           exact ⟨by simpa [hpds] using hpd, hsok⟩)
        | injection hx
    · repeat' split
      all_goals simp [StepRes.errOf]
  | DECREMENT =>
    rw [htok] at hpds
    simp only [tokDelta] at hpds
    simp only [stepTok]
    constructor
    · intro st2 hx
      repeat' split at hx
      all_goals first
        | (injection hx with h3x; subst h3x;
           exact ⟨by simpa [hpds] using hpd, hsok⟩)
        | injection hx
    · repeat' split
      all_goals simp [StepRes.errOf]
  | OUT =>
    rw [htok] at hpds
    simp only [tokDelta] at hpds
    simp only [stepTok]
    constructor
    · intro st2 hx
      repeat' split at hx
      all_goals first
        | (injection hx with h3x; subst h3x;
           exact ⟨by simpa [hpds] using hpd, hsok⟩)
        | injection hx
    · repeat' split
      all_goals simp [StepRes.errOf]
  | IN =>
    rw [htok] at hpds
    simp only [tokDelta] at hpds
    simp only [stepTok]
    constructor
    · intro st2 hx
      repeat' split at hx
      all_goals first
        | (injection hx with h3x; subst h3x;
           exact ⟨by simpa [hpds] using hpd, hsok⟩)
        | injection hx
    · repeat' split
      all_goals simp [StepRes.errOf]
  | START_LOOP =>
    rw [htok] at hpds
    simp only [tokDelta] at hpds
    rw [htok] at hget
    simp only [stepTok]
    constructor
    · intro st2 hx
      cases hni : normIdx st.memory.length st.ptr with
      | none => simp only [hni] at hx; injection hx
      | some i =>
        simp only [hni] at hx
        cases hg : st.memory.get? i with
        | none => simp only [hg] at hx; injection hx
        | some v =>
          simp only [hg] at hx
          by_cases hz : isZero v = true
          · rw [if_pos hz] at hx
            cases hsk : skip_loop st.ip ts with
            | none => simp only [hsk] at hx; injection hx
            | some j =>
              simp only [hsk] at hx
              injection hx with h3x
              subst h3x
              obtain ⟨hj1, hj2⟩ := skip_loop_aux_pd ts ts.length [st.ip] st.ip j
                (by omega) hsk
              refine ⟨?_, hsok⟩
              show pd ts (j + 1) = (st.loop_stack.length : Int)
              simp only [List.length_cons, List.length_nil] at hj2
              push_cast at hj2
              omega
          · rw [if_neg hz] at hx
            injection hx with h3x
            subst h3x
            refine ⟨?_, ?_⟩
            · show pd ts (st.ip + 1) = ((st.ip :: st.loop_stack).length : Int)
              simp only [List.length_cons]
              push_cast
              omega
            · exact ⟨hget, hpd, hsok⟩
    · cases hni : normIdx st.memory.length st.ptr with
      | none => simp only [hni]; simp [StepRes.errOf]
      | some i =>
        simp only [hni]
        cases hg : st.memory.get? i with
        | none => simp only [hg]; simp [StepRes.errOf]
        | some v =>
          simp only [hg]
          by_cases hz : isZero v = true
          · rw [if_pos hz]
            cases hsk : skip_loop st.ip ts with
            | none => simp only [hsk]; simp [StepRes.errOf]
            | some j => simp only [hsk]; simp [StepRes.errOf]
          · rw [if_neg hz]
            simp [StepRes.errOf]
  | END_LOOP =>
    rw [htok] at hpds
    simp only [tokDelta] at hpds
    simp only [stepTok]
    have hnn : 0 ≤ pd ts (st.ip + 1) := hbal.1 (st.ip + 1)
    have hlen1 : 1 ≤ (st.loop_stack.length : Int) := by omega
    cases hstk : st.loop_stack with
    | nil =>
      rw [hstk] at hlen1
      simp at hlen1
    | cons s rest =>
      rw [hstk] at hpd hsok
      obtain ⟨hs1, hs2, hs3⟩ := hsok
      constructor
      · intro st2 hx
        cases hni : normIdx st.memory.length st.ptr with
        | none => simp only [hni] at hx; injection hx
        | some i =>
          simp only [hni] at hx
          cases hg : st.memory.get? i with
          | none => simp only [hg] at hx; injection hx
          | some v =>
            simp only [hg] at hx
            by_cases hz : isZero v = true
            · rw [if_pos hz] at hx
              injection hx with h3x
              subst h3x
              refine ⟨?_, hs3⟩
              show pd ts (st.ip + 1) = (rest.length : Int)
              simp only [List.length_cons] at hpd
              push_cast at hpd
              omega
            · rw [if_neg hz] at hx
              injection hx with h3x
              subst h3x
              have hpds2 : pd ts (s + 1) = pd ts s + 1 := by
                have := pd_succ ts hs1
                simpa [tokDelta] using this
              refine ⟨?_, ?_⟩
              · show pd ts (s + 1) = ((s :: rest).length : Int)
                simp only [List.length_cons] at hpd ⊢
                push_cast at hpd ⊢
                omega
              · exact ⟨hs1, hs2, hs3⟩
      · cases hni : normIdx st.memory.length st.ptr with
        | none => simp only [hni]; simp [StepRes.errOf]
        | some i =>
          simp only [hni]
          cases hg : st.memory.get? i with
          | none => simp only [hg]; simp [StepRes.errOf]
          | some v =>
            simp only [hg]
            by_cases hz : isZero v = true
            · rw [if_pos hz]
              simp [StepRes.errOf]
            · rw [if_neg hz]
              simp [StepRes.errOf]

/-- Over a whole run on a balanced stream from an invariant state, the
loop-entry stack is never popped or peeked while empty. -/
lemma run_loop_inv (ts : List Token) (mode : Bool) (hbal : BalancedTok ts) :
    ∀ (fuel : Nat) (st : ExecState), InvLoop ts st →
      (parse_and_execute ts mode fuel st).errOf ≠ some .stackIndexError := by
  intro fuel
  induction fuel with
  | zero =>
    intro st hinv
    rw [parse_and_execute]
    simp [Outcome.errOf]
  | succ fuel ih =>
    intro st hinv
    rw [parse_and_execute]
    by_cases hip : st.ip < ts.length
    · rw [if_pos hip]
      obtain ⟨hnext, herr⟩ := step_loop_inv ts mode st hbal hinv hip
      cases hstep : step ts mode st with
      | next st2 => exact ih st2 (hnext st2 hstep)
      | exit1 st2 => simp [Outcome.errOf]
      | err e st2 =>
        rw [hstep] at herr
        simp only [StepRes.errOf] at herr
        simpa [Outcome.errOf] using herr
    · rw [if_neg hip]
      simp [Outcome.errOf]

lemma normIdx_zero (p : Int) : normIdx 0 p = none := by
  unfold normIdx
  split_ifs with hc1 hc2
  · exfalso
    push_cast at hc1
    omega
  · exfalso
    push_cast at hc2
    omega
  · rfl

lemma filterMap_length_AC (cs : List Char) :
    (cs.filterMap ALLOWED_CHARS).length =
      (cs.filter (fun c => (ALLOWED_CHARS c).isSome)).length := by
  induction cs with
  | nil => rfl
  | cons c rest ih =>
    cases hAC : ALLOWED_CHARS c <;>
      simp [List.filterMap_cons, List.filter_cons, hAC, ih]

/-- Instructions that never write a cell. -/
def pureTok : Token → Bool
  | .SHIFT_LEFT => true
  | .SHIFT_RIGHT => true
  | .OUT => true
  | .START_LOOP => true
  | .END_LOOP => true
  | _ => false

/-- Whether a step raised a pointer-range error (memory `IndexError` or the
`ZeroDivisionError` of taking `% 0`). -/
def isRangeErr : StepRes → Bool
  | .err .memIndexError _ => true
  | .err .zeroDivisionError _ => true
  | _ => false

/-- C1: contrary to the claim, an Input instruction in numeric output mode
never validates its line: on the input "abc" — which cannot be converted
into a valid cell value — the executor stores the raw string in the tape,
emits no diagnostic, does not exit, and finishes the run normally. -/
theorem C1_numeric_invalid_input_not_fatal :
    parse_and_execute [Token.IN] true 2 (initState [Value.intV 0] ["abc"]) =
      .finished ⟨0, [Value.strV "abc"], [], 1, [], []⟩ := by
  rfl

/-- C2: contrary to the claim, cells do not stay in [0,255]: a char-mode
Input of "Ā" (code point 256) stores 256, and a numeric-mode Input stores
the raw input string, and in both cases execution continues normally. -/
theorem C2_cell_range_violated_by_input :
    parse_and_execute [Token.IN] false 2 (initState [Value.intV 0] ["Ā"]) =
      .finished ⟨0, [Value.intV 256], [], 1, [], []⟩ ∧
    parse_and_execute [Token.IN] true 2 (initState [Value.intV 0] ["x"]) =
      .finished ⟨0, [Value.strV "x"], [], 1, [], []⟩ := by
  constructor
  · rfl
  · rfl

/-- C3: at a LoopStart whose cell is 0 the executor sets `ip` to the
matching LoopEnd's index, so with the unconditional `+1` execution resumes
just past the loop; at a LoopEnd whose cell is non-zero it sets `ip` to the
LoopStart index on top of the loop-entry stack, so the `+1` re-enters the
body's first instruction. -/
theorem C3_loop_jump_targets
    (ts : List Token) (mode : Bool) (stS stE : ExecState)
    (j s iS iE : Nat) (vS vE : Value) (rest : List Nat)
    (hS1 : ts.get? stS.ip = some .START_LOOP)
    (hS2 : normIdx stS.memory.length stS.ptr = some iS)
    (hS3 : stS.memory.get? iS = some vS)
    (hS4 : isZero vS = true)
    (hS5 : isMatch ts stS.ip j)
    (hE1 : ts.get? stE.ip = some .END_LOOP)
    (hE2 : normIdx stE.memory.length stE.ptr = some iE)
    (hE3 : stE.memory.get? iE = some vE)
    (hE4 : isZero vE = false)
    (hE5 : stE.loop_stack = s :: rest) :
    step ts mode stS = .next { stS with ip := j + 1 } ∧
    step ts mode stE = .next { stE with ip := s + 1 } := by
  constructor
  · unfold step
    rw [hS1]
    simp only [stepTok, hS2, hS3, hS4, if_true,
      skip_loop_eq_of_isMatch ts stS.ip j hS5]
  · unfold step
    rw [hE1]
    simp only [stepTok, hE2, hE3, hE4, Bool.false_eq_true, if_false, hE5]

theorem C3_loop_jump_targets_witness :
    step [Token.START_LOOP, Token.END_LOOP] false
        ⟨0, [Value.intV 0], [], 0, [], []⟩ =
      .next ⟨0, [Value.intV 0], [], 2, [], []⟩ ∧
    step [Token.START_LOOP, Token.END_LOOP] false
        ⟨0, [Value.intV 1], [0], 1, [], []⟩ =
      .next ⟨0, [Value.intV 1], [0], 1, [], []⟩ :=
  C3_loop_jump_targets [Token.START_LOOP, Token.END_LOOP] false
    ⟨0, [Value.intV 0], [], 0, [], []⟩ ⟨0, [Value.intV 1], [0], 1, [], []⟩
    1 0 0 0 (Value.intV 0) (Value.intV 1) []
    (by decide) (by decide) (by decide) (by decide)
    ⟨by decide, by decide, by decide, fun k hk1 hk2 => absurd hk2 (by omega)⟩
    (by decide) (by decide) (by decide) (by decide) (by decide)

/-- C4: on source text with balanced brackets, `lex` succeeds, mapping each
recognized character one-to-one, in order, to its token, every other
character contributing nothing; in particular the stream length is the
number of recognized characters. -/
theorem C4_lex_balanced_filterMap (cs : List Char)
    (h : bracketScan cs 0 = some 0) :
    lex cs = .ok (cs.filterMap ALLOWED_CHARS) ∧
    (cs.filterMap ALLOWED_CHARS).length =
      (cs.filter (fun c => (ALLOWED_CHARS c).isSome)).length := by
  constructor
  · simpa using lexAux_ok_of_balanced cs 0 0 [] [] (by simpa using h)
  · exact filterMap_length_AC cs

theorem C4_lex_balanced_filterMap_witness :
    lex "+a\n[->.],".toList =
      .ok ("+a\n[->.],".toList.filterMap ALLOWED_CHARS) ∧
    ("+a\n[->.],".toList.filterMap ALLOWED_CHARS).length =
      ("+a\n[->.],".toList.filter
        (fun c => (ALLOWED_CHARS c).isSome)).length :=
  C4_lex_balanced_filterMap ("+a\n[->.],".toList) (by decide)

/-- C5: a `]` reached with no unmatched `[` before it (and no earlier
failure) makes `lex` fail immediately with the unmatched-close error whose
reported line is the number of newlines before the `]` and whose reported
column is the raw offset of the `]` in the whole input, not reset per
line; no token stream is returned. -/
theorem C5_unmatched_close_position (cs : List Char) (i : Nat)
    (h1 : bracketScan (cs.take i) 0 = some 0)
    (h2 : cs.get? i = some ']') :
    lex cs = .error (.unmatchedClose (countNl (cs.take i)) i) := by
  have h3 := lexAux_unmatchedClose cs i 0 0 [] [] (by simpa using h1) h2
  simpa using h3

theorem C5_unmatched_close_position_witness :
    lex "+a\n[]]x".toList =
      .error (.unmatchedClose (countNl ("+a\n[]]x".toList.take 5)) 5) :=
  C5_unmatched_close_position ("+a\n[]]x".toList) 5 (by decide) (by decide)

/-- C6: given a LoopStart at `ip` whose matching LoopEnd — the first
position after `ip` at which the depth seeded at 1 reaches 0 — exists
before the end of the stream at index `j`, `skip_loop` returns exactly
`j`. -/
theorem C6_skip_loop_finds_match (ts : List Token) (ip j : Nat)
    (h1 : ts.get? ip = some .START_LOOP)
    (h2 : isMatch ts ip j) :
    skip_loop ip ts = some j :=
  skip_loop_eq_of_isMatch ts ip j h2

theorem C6_skip_loop_finds_match_witness :
    skip_loop 0 [Token.START_LOOP, Token.START_LOOP, Token.END_LOOP,
      Token.END_LOOP] = some 3 :=
  C6_skip_loop_finds_match
    [Token.START_LOOP, Token.START_LOOP, Token.END_LOOP, Token.END_LOOP] 0 3
    (by decide)
    ⟨by decide, by decide, by decide, by
      intro k hk1 hk2
      have hk : k = 1 ∨ k = 2 := by omega
      rcases hk with rfl | rfl <;> decide⟩

/-- C7: tape arithmetic wraps modularly: Increment at 255 gives 0,
Decrement at 0 gives 255, MoveLeft from index 0 on a tape of length N
gives index N-1, MoveRight from index N-1 gives index 0, and none of these
four instructions ever raises an out-of-range (or modulo-by-zero) error
from an in-range state. -/
theorem C7_wraparound (ts : List Token) (mode : Bool) (N : Nat)
    (stI stD stL stR stG : ExecState) (iI iD : Nat) (tG : Token)
    (hI1 : ts.get? stI.ip = some .INCREMENT)
    (hI2 : normIdx stI.memory.length stI.ptr = some iI)
    (hI3 : stI.memory.get? iI = some (.intV 255))
    (hD1 : ts.get? stD.ip = some .DECREMENT)
    (hD2 : normIdx stD.memory.length stD.ptr = some iD)
    (hD3 : stD.memory.get? iD = some (.intV 0))
    (hL1 : ts.get? stL.ip = some .SHIFT_LEFT)
    (hL2 : stL.ptr = 0)
    (hL3 : stL.memory.length = N)
    (hN : 0 < N)
    (hR1 : ts.get? stR.ip = some .SHIFT_RIGHT)
    (hR2 : stR.ptr = (N : Int) - 1)
    (hR3 : stR.memory.length = N)
    (hG1 : ts.get? stG.ip = some tG)
    (hG2 : tG = .SHIFT_LEFT ∨ tG = .SHIFT_RIGHT ∨ tG = .INCREMENT ∨
      tG = .DECREMENT)
    (hG3 : 0 < stG.memory.length)
    (hG4 : 0 ≤ stG.ptr)
    (hG5 : stG.ptr < (stG.memory.length : Int)) :
    step ts mode stI =
      .next { stI with memory := stI.memory.set iI (.intV 0),
                       ip := stI.ip + 1 } ∧
    step ts mode stD =
      .next { stD with memory := stD.memory.set iD (.intV 255),
                       ip := stD.ip + 1 } ∧
    step ts mode stL =
      .next { stL with ptr := (N : Int) - 1, ip := stL.ip + 1 } ∧
    step ts mode stR = .next { stR with ptr := 0, ip := stR.ip + 1 } ∧
    isRangeErr (step ts mode stG) = false := by
  refine ⟨?_, ?_, ?_, ?_, ?_⟩
  · unfold step
    rw [hI1]
    simp only [stepTok, hI2, hI3]
    rw [show ((255 : Int) + 1) % 256 = 0 from by decide]
  · unfold step
    rw [hD1]
    simp only [stepTok, hD2, hD3]
    rw [show ((0 : Int) - 1) % 256 = 255 from by decide]
  · unfold step
    rw [hL1]
    simp only [stepTok]
    rw [if_neg (by omega), hL2, hL3]
    have hmod : ((0 : Int) - 1) % (N : Int) = (N : Int) - 1 := by
      have he : ((0 : Int) - 1) = ((N : Int) - 1) + (N : Int) * (-1) := by ring
      rw [he, Int.add_mul_emod_self_left,
        Int.emod_eq_of_lt (by omega) (by omega)]
    rw [hmod]
  · unfold step
    rw [hR1]
    simp only [stepTok]
    rw [if_neg (by omega), hR2, hR3]
    have hmod : ((N : Int) - 1 + 1) % (N : Int) = 0 := by
      rw [show ((N : Int) - 1 + 1) = (N : Int) from by ring, Int.emod_self]
    rw [hmod]
  · obtain ⟨hnx, he1, he2⟩ := step_ptr_inv ts mode stG hG3 hG4 hG5
    cases hstep : step ts mode stG with
    | next st2 => rfl
    | exit1 st2 => rfl
    | err e st2 =>
      rw [hstep] at he1 he2
      simp only [StepRes.errOf, Ne, Option.some.injEq] at he1 he2
      cases e with
      | memIndexError => exact absurd rfl he1
      | zeroDivisionError => exact absurd rfl he2
      | stackIndexError => rfl
      | tokenIndexError => rfl
      | typeError => rfl
      | valueError => rfl
      | eofError => rfl

theorem C7_wraparound_witness :
    step [Token.INCREMENT, Token.DECREMENT, Token.SHIFT_LEFT,
        Token.SHIFT_RIGHT] false ⟨0, [Value.intV 255], [], 0, [], []⟩ =
      .next ⟨0, [Value.intV 0], [], 1, [], []⟩ ∧
    step [Token.INCREMENT, Token.DECREMENT, Token.SHIFT_LEFT,
        Token.SHIFT_RIGHT] false ⟨0, [Value.intV 0], [], 1, [], []⟩ =
      .next ⟨0, [Value.intV 255], [], 2, [], []⟩ ∧
    step [Token.INCREMENT, Token.DECREMENT, Token.SHIFT_LEFT,
        Token.SHIFT_RIGHT] false ⟨0, [Value.intV 7], [], 2, [], []⟩ =
      .next ⟨(1 : Int) - 1, [Value.intV 7], [], 3, [], []⟩ ∧
    step [Token.INCREMENT, Token.DECREMENT, Token.SHIFT_LEFT,
        Token.SHIFT_RIGHT] false ⟨0, [Value.intV 7], [], 3, [], []⟩ =
      .next ⟨0, [Value.intV 7], [], 4, [], []⟩ ∧
    isRangeErr (step [Token.INCREMENT, Token.DECREMENT, Token.SHIFT_LEFT,
      Token.SHIFT_RIGHT] false ⟨0, [Value.intV 255], [], 0, [], []⟩) =
      false := by
  have h := C7_wraparound
    [Token.INCREMENT, Token.DECREMENT, Token.SHIFT_LEFT, Token.SHIFT_RIGHT]
    false 1
    ⟨0, [Value.intV 255], [], 0, [], []⟩ ⟨0, [Value.intV 0], [], 1, [], []⟩
    ⟨0, [Value.intV 7], [], 2, [], []⟩ ⟨0, [Value.intV 7], [], 3, [], []⟩
    ⟨0, [Value.intV 255], [], 0, [], []⟩ 0 0 Token.INCREMENT
    (by decide) (by decide) (by decide) (by decide) (by decide) (by decide)
    (by decide) (by decide) (by decide) (by decide) (by decide) (by decide)
    (by decide) (by decide) (by decide) (by decide) (by decide) (by decide)
  exact h

/-- C8: for a token stream produced by a successful `lex` (hence
bracket-balanced) and a run of the executor from its initial state, the
loop-entry stack is never popped or peeked while empty at a LoopEnd: the
stack underflow `IndexError` never occurs, whatever the fuel. -/
theorem C8_loop_stack_never_underflows (cs : List Char) (ts : List Token)
    (mode : Bool) (mem : List Value) (inputs : List String) (fuel : Nat)
    (hlex : lex cs = .ok ts) (hmem : 0 < mem.length) :
    (parse_and_execute ts mode fuel (initState mem inputs)).errOf ≠
      some .stackIndexError := by
  apply run_loop_inv ts mode (lex_ok_balanced hlex) fuel
  exact ⟨rfl, trivial⟩

theorem C8_loop_stack_never_underflows_witness :
    (parse_and_execute
        [Token.INCREMENT, Token.START_LOOP, Token.DECREMENT, Token.END_LOOP]
        false 20 (initState [Value.intV 1] [])).errOf ≠
      some .stackIndexError :=
  C8_loop_stack_never_underflows "+[-]".toList
    [Token.INCREMENT, Token.START_LOOP, Token.DECREMENT, Token.END_LOOP]
    false [Value.intV 1] [] 20 rfl (by decide)

/-- C9: the executor has no guard for a zero-length tape: each of the six
non-loop instructions fails on an empty tape (the pointer moves with the
`ZeroDivisionError` of `% 0`, the cell-накcessing instructions with a memory
`IndexError`); with a positive-length tape, no run from the initial state
ever raises a pointer or cell out-of-range error. -/
theorem C9_empty_tape_unguarded (ts : List Token) (mode : Bool)
    (st1 st2 st3 st4 st5 st6 : ExecState) (s : String) (srest : List String)
    (c : Char) (mem : List Value) (inputs : List String) (fuel : Nat)
    (h1a : ts.get? st1.ip = some .SHIFT_LEFT) (h1b : st1.memory = [])
    (h2a : ts.get? st2.ip = some .SHIFT_RIGHT) (h2b : st2.memory = [])
    (h3a : ts.get? st3.ip = some .INCREMENT) (h3b : st3.memory = [])
    (h4a : ts.get? st4.ip = some .DECREMENT) (h4b : st4.memory = [])
    (h5a : ts.get? st5.ip = some .OUT) (h5b : st5.memory = [])
    (h6a : ts.get? st6.ip = some .IN) (h6b : st6.memory = [])
    (h6c : st6.inputs = s :: srest)
    (h6d : mode = true ∨ s.toList = [c])
    (hpos : 0 < mem.length) :
    (step ts mode st1).errOf = some .zeroDivisionError ∧
    (step ts mode st2).errOf = some .zeroDivisionError ∧
    (step ts mode st3).errOf = some .memIndexError ∧
    (step ts mode st4).errOf = some .memIndexError ∧
    (step ts mode st5).errOf = some .memIndexError ∧
    (step ts mode st6).errOf = some .memIndexError ∧
    ((parse_and_execute ts mode fuel (initState mem inputs)).errOf ≠
        some .memIndexError ∧
      (parse_and_execute ts mode fuel (initState mem inputs)).errOf ≠
        some .zeroDivisionError) := by
  refine ⟨?_, ?_, ?_, ?_, ?_, ?_, ?_⟩
  · unfold step
    rw [h1a]
    simp [stepTok, h1b, StepRes.errOf]
  · unfold step
    rw [h2a]
    simp [stepTok, h2b, StepRes.errOf]
  · unfold step
    rw [h3a]
    simp [stepTok, h3b, normIdx_zero, StepRes.errOf]
  · unfold step
    rw [h4a]
    simp [stepTok, h4b, normIdx_zero, StepRes.errOf]
  · unfold step
    rw [h5a]
    simp [stepTok, h5b, normIdx_zero, StepRes.errOf]
  · unfold step
    rw [h6a]
    by_cases hm : mode = true
    · simp [stepTok, h6b, h6c, hm, normIdx_zero, StepRes.errOf]
    · rcases h6d with h6d | h6d
      · exact absurd h6d hm
      · have h6d2 : s.data = [c] := h6d
        simp [stepTok, h6b, h6c, h6d2, hm, normIdx_zero, StepRes.errOf]
  · apply run_ptr_inv ts mode fuel (initState mem inputs)
    · simpa [initState] using hpos
    · simp [initState]
    · show (0 : Int) < ((initState mem inputs).memory.length : Int)
      simp only [initState]
      push_cast
      omega

theorem C9_empty_tape_unguarded_witness :
    (step [Token.SHIFT_LEFT, Token.SHIFT_RIGHT, Token.INCREMENT,
        Token.DECREMENT, Token.OUT, Token.IN] false
        ⟨0, [], [], 0, [], []⟩).errOf = some .zeroDivisionError ∧
    (step [Token.SHIFT_LEFT, Token.SHIFT_RIGHT, Token.INCREMENT,
        Token.DECREMENT, Token.OUT, Token.IN] false
        ⟨0, [], [], 1, [], []⟩).errOf = some .zeroDivisionError ∧
    (step [Token.SHIFT_LEFT, Token.SHIFT_RIGHT, Token.INCREMENT,
        Token.DECREMENT, Token.OUT, Token.IN] false
        ⟨0, [], [], 2, [], []⟩).errOf = some .memIndexError ∧
    (step [Token.SHIFT_LEFT, Token.SHIFT_RIGHT, Token.INCREMENT,
        Token.DECREMENT, Token.OUT, Token.IN] false
        ⟨0, [], [], 3, [], []⟩).errOf = some .memIndexError ∧
    (step [Token.SHIFT_LEFT, Token.SHIFT_RIGHT, Token.INCREMENT,
        Token.DECREMENT, Token.OUT, Token.IN] false
        ⟨0, [], [], 4, [], []⟩).errOf = some .memIndexError ∧
    (step [Token.SHIFT_LEFT, Token.SHIFT_RIGHT, Token.INCREMENT,
        Token.DECREMENT, Token.OUT, Token.IN] false
        ⟨0, [], [], 5, ["a"], []⟩).errOf = some .memIndexError ∧
    ((parse_and_execute [Token.SHIFT_LEFT, Token.SHIFT_RIGHT,
          Token.INCREMENT, Token.DECREMENT, Token.OUT, Token.IN] false 3
          (initState [Value.intV 0] [])).errOf ≠ some .memIndexError ∧
      (parse_and_execute [Token.SHIFT_LEFT, Token.SHIFT_RIGHT,
          Token.INCREMENT, Token.DECREMENT, Token.OUT, Token.IN] false 3
          (initState [Value.intV 0] [])).errOf ≠ some .zeroDivisionError) :=
  C9_empty_tape_unguarded
    [Token.SHIFT_LEFT, Token.SHIFT_RIGHT, Token.INCREMENT, Token.DECREMENT,
      Token.OUT, Token.IN] false
    ⟨0, [], [], 0, [], []⟩ ⟨0, [], [], 1, [], []⟩ ⟨0, [], [], 2, [], []⟩
    ⟨0, [], [], 3, [], []⟩ ⟨0, [], [], 4, [], []⟩ ⟨0, [], [], 5, ["a"], []⟩
    "a" [] 'a' [Value.intV 0] [] 3
    (by decide) (by decide) (by decide) (by decide) (by decide) (by decide)
    (by decide) (by decide) (by decide) (by decide) (by decide) (by decide)
    (by decide) (Or.inr (by decide)) (by decide)

/-- C10: the tape length is unchanged by each step and over a whole run,
each fall-through step changes at most the cell the pointer resolves to,
and the pointer moves, Output, LoopStart and LoopEnd leave the whole tape
unchanged. -/
theorem C10_frame_conditions (ts : List Token) (mode : Bool)
    (st st2 st3 : ExecState) (i : Nat) (tok : Token) (fuel : Nat)
    (hnext : step ts mode st = .next st2)
    (htok : ts.get? st.ip = some tok)
    (hi : normIdx st.memory.length st.ptr ≠ some i) :
    ((step ts mode st).state).memory.length = st.memory.length ∧
    st2.memory.get? i = st.memory.get? i ∧
    (st2.memory = st.memory ∨ pureTok tok = false) ∧
    ((parse_and_execute ts mode fuel st3).state).memory.length =
      st3.memory.length := by
  refine ⟨step_memlen ts mode st, step_frame ts mode st st2 i hnext hi, ?_,
    run_memlen ts mode fuel st3⟩
  cases hp : pureTok tok with
  | false => exact Or.inr rfl
  | true =>
    refine Or.inl (step_pure ts mode st st2 tok htok ?_ hnext)
    cases tok with
    | SHIFT_LEFT => exact Or.inl rfl
    | SHIFT_RIGHT => exact Or.inr (Or.inl rfl)
    | OUT => exact Or.inr (Or.inr (Or.inl rfl))
    | START_LOOP => exact Or.inr (Or.inr (Or.inr (Or.inl rfl)))
    | END_LOOP => exact Or.inr (Or.inr (Or.inr (Or.inr rfl)))
    | INCREMENT => simp [pureTok] at hp
    | DECREMENT => simp [pureTok] at hp
    | IN => simp [pureTok] at hp

theorem C10_frame_conditions_witness :
    ((step [Token.OUT] false
        ⟨0, [Value.intV 65], [], 0, [], []⟩).state).memory.length =
      ([Value.intV 65] : List Value).length ∧
    (⟨0, [Value.intV 65], [], 1, [], [OutItem.charOut 65]⟩ :
        ExecState).memory.get? 5 =
      ([Value.intV 65] : List Value).get? 5 ∧
    ((⟨0, [Value.intV 65], [], 1, [], [OutItem.charOut 65]⟩ :
        ExecState).memory = [Value.intV 65] ∨ pureTok Token.OUT = false) ∧
    ((parse_and_execute [Token.OUT] false 3
        (⟨0, [Value.intV 65], [], 0, [], []⟩ :
          ExecState)).state).memory.length =
      ([Value.intV 65] : List Value).length :=
  C10_frame_conditions [Token.OUT] false
    ⟨0, [Value.intV 65], [], 0, [], []⟩
    ⟨0, [Value.intV 65], [], 1, [], [OutItem.charOut 65]⟩
    ⟨0, [Value.intV 65], [], 0, [], []⟩ 5 Token.OUT 3
    (by decide) (by decide) (by decide)
